import Mathlib

/-!
Verification of the topic-store / article-pipeline core of the
`onnou-auto-updater` repository.

The Python sources are shallowly embedded:

* `src/theme_manager.py` (`ThemeManager`): a topic ("theme") store kept in
  memory (`themes_data`) and mirrored to a JSON file on every mutation
  (`_save_themes`).  Machine strings are modelled as `List Char`; the JSON
  document written by `json.dump` / read by `json.load` is modelled at the
  level of structured JSON values (`Jv`).
* `src/article_generator.py` (`ArticleGenerator` and `main`): the tagged-block
  extractor of `generate_article`, the category classifier
  `determine_category`, the related-links selector `add_internal_links`, and
  the tail of `main` (everything after topic selection), with every external
  HTTP request modelled as an oracle input (`none` = the request raised).

Python exceptions are modelled as explicit outcome values; a method that can
raise returns its state at raise time, so "state unchanged on error" is a
statement about the embedding of the mutation-free abort path of the loop.
-/

namespace Onnou

/-- One topic record, `theme` in `theme_manager.py`.  The `used` field is
`Option Bool`: `none` models a dict that lacks the `used` key entirely
(`theme.get('used', False)` in the source), `some b` a present boolean. -/
structure Theme where
  id : Int
  title : List Char
  keywords : List (List Char)
  target_pain : List Char
  approach : List Char
  used : Option Bool
deriving DecidableEq, Repr

/-- Python `theme.get('used', False)`. -/
def themeUsed (t : Theme) : Bool := t.used.getD false

/-- The persisted document `{ "themes": [...] }` — a mapping with the single
key `themes`. -/
structure ThemesData where
  themes : List Theme
deriving DecidableEq, Repr

/-- A `ThemeManager`'s observable state: the in-memory `themes_data` and the
current content of the backing `themes.json` file. -/
structure ManagerState where
  mem : ThemesData
  file : ThemesData
deriving DecidableEq, Repr

/-- Method `ThemeManager._save_themes`: rewrite the whole file from memory. -/
def save_themes (s : ManagerState) : ManagerState := ⟨s.mem, s.mem⟩

/-- The scan loop of `ThemeManager.get_next_theme`:
`for theme in themes: if not theme.get('used', False): return theme`. -/
def findFirstUnused : List Theme → Option Theme
  | [] => none
  | t :: ts => if themeUsed t then findFirstUnused ts else some t

/-- Method `ThemeManager.get_next_theme` (read-only, no state returned because the
method performs no mutation). -/
def get_next_theme (s : ManagerState) : Option Theme :=
  findFirstUnused s.mem.themes

/-- Outcome of `ThemeManager.mark_as_used`: normal return, or the
`ValueError` raised when no theme has the id. -/
inductive MarkOutcome where
  | marked
  | notFound
deriving DecidableEq, Repr

/-- The loop of `ThemeManager.mark_as_used`: walk the list, set `used = True`
on the first theme whose `id` matches, `none` when the loop falls through to
`raise ValueError`. -/
def markLoop (i : Int) : List Theme → Option (List Theme)
  | [] => none
  | t :: ts =>
    if t.id = i then some ({ t with used := some true } :: ts)
    else (markLoop i ts).map (t :: ·)

/-- Method `ThemeManager.mark_as_used`.  On a hit the in-memory record is mutated and
`_save_themes()` rewrites the file; on a miss the method raises having mutated
nothing, so the state component is the caller's state unchanged. -/
def mark_as_used (s : ManagerState) (i : Int) : ManagerState × MarkOutcome :=
  match markLoop i s.mem.themes with
  | some ts => (save_themes ⟨⟨ts⟩, s.file⟩, .marked)
  | none => (s, .notFound)

/-- Method `ThemeManager.get_unused_count`:
`sum(1 for theme in themes if not theme.get('used', False))`. -/
def get_unused_count (s : ManagerState) : Nat :=
  s.mem.themes.countP (fun t => !themeUsed t)

/-- Method `ThemeManager.reset_all_themes`: set every `used` to `False`, then save. -/
def reset_all_themes (s : ManagerState) : ManagerState :=
  save_themes ⟨⟨s.mem.themes.map (fun t => { t with used := some false })⟩, s.file⟩

/-- Method `ThemeManager.add_themes`: `themes_data['themes'].extend(new)` followed by
`_save_themes()`. -/
def add_themes (s : ManagerState) (new : List Theme) : ManagerState :=
  save_themes ⟨⟨s.mem.themes ++ new⟩, s.file⟩

/-- Concrete fixture: an unused theme with id 1. -/
def wTheme1 : Theme := ⟨1, [], [], [], [], some false⟩

/-- Concrete fixture: a theme with id 2 whose record lacks the `used` key. -/
def wTheme2 : Theme := ⟨2, [], [], [], [], none⟩

/-- Concrete fixture: a synced two-theme store. -/
def wStore : ManagerState := ⟨⟨[wTheme1, wTheme2]⟩, ⟨[wTheme1, wTheme2]⟩⟩

/-- Normalise a record that lacks the `used` key to one carrying an explicit
`used: false` — the reading that `theme.get('used', False)` applies. -/
def scrubTheme (t : Theme) : Theme :=
  match t.used with
  | none => { t with used := some false }
  | some _ => t

/-! ### JSON values and (de)serialisation of the store

`_save_themes` runs `json.dump(self.themes_data, f)` and `_load_themes` runs
`json.load(f)`; both round-trip the Python dict through the JSON data model.
`Jv` is that data model; `encodeThemesData` is the document `_save_themes`
writes and `decodeThemesData` recovers a `ThemesData` from such a document
(reading a record without a `used` key back as `used := none`). -/

/-- A JSON value as produced by `json.load` / consumed by `json.dump`. -/
inductive Jv where
  | jnull
  | jbool (b : Bool)
  | jnum (n : Int)
  | jstr (s : List Char)
  | jarr (elems : List Jv)
  | jobj (fields : List (List Char × Jv))

def jKeyId : List Char := "id".toList
def jKeyTitle : List Char := "title".toList
def jKeyKeywords : List Char := "keywords".toList
def jKeyTargetPain : List Char := "target_pain".toList
def jKeyApproach : List Char := "approach".toList
def jKeyUsed : List Char := "used".toList
def jKeyThemes : List Char := "themes".toList

/-- Key lookup with Python-dict semantics: a later duplicate key wins. -/
def jLookup (k : List Char) (fields : List (List Char × Jv)) : Option Jv :=
  fields.foldl (fun acc f => if f.1 = k then some f.2 else acc) none

def jAsInt : Jv → Option Int
  | .jnum n => some n
  | _ => none

def jAsStr : Jv → Option (List Char)
  | .jstr s => some s
  | _ => none

def strList : List Jv → Option (List (List Char))
  | [] => some []
  | v :: vs => do
      let s ← jAsStr v
      let rest ← strList vs
      some (s :: rest)

def jAsStrList : Jv → Option (List (List Char))
  | .jarr xs => strList xs
  | _ => none

/-- The JSON object `json.dump` writes for one theme dict; a record whose
`used` key is absent in memory is written without a `used` member. -/
def encodeTheme (t : Theme) : Jv :=
  .jobj ([(jKeyId, .jnum t.id), (jKeyTitle, .jstr t.title),
          (jKeyKeywords, .jarr (t.keywords.map Jv.jstr)),
          (jKeyTargetPain, .jstr t.target_pain),
          (jKeyApproach, .jstr t.approach)] ++
        (match t.used with
         | none => []
         | some b => [(jKeyUsed, Jv.jbool b)]))

def decodeUsedField : Option Jv → Option (Option Bool)
  | none => some none
  | some (.jbool b) => some (some b)
  | some _ => none

def decodeTheme (v : Jv) : Option Theme :=
  match v with
  | .jobj fs => do
      let i ← jLookup jKeyId fs >>= jAsInt
      let ttl ← jLookup jKeyTitle fs >>= jAsStr
      let kws ← jLookup jKeyKeywords fs >>= jAsStrList
      let tp ← jLookup jKeyTargetPain fs >>= jAsStr
      let ap ← jLookup jKeyApproach fs >>= jAsStr
      let u ← decodeUsedField (jLookup jKeyUsed fs)
      some ⟨i, ttl, kws, tp, ap, u⟩
  | _ => none

def decodeThemeList : List Jv → Option (List Theme)
  | [] => some []
  | v :: vs => do
      let t ← decodeTheme v
      let rest ← decodeThemeList vs
      some (t :: rest)

/-- The whole persisted document `{ "themes": [...] }`. -/
def encodeThemesData (d : ThemesData) : Jv :=
  .jobj [(jKeyThemes, .jarr (d.themes.map encodeTheme))]

def decodeThemesData (v : Jv) : Option ThemesData :=
  match v with
  | .jobj fs =>
      match jLookup jKeyThemes fs with
      | some (.jarr xs) => (decodeThemeList xs).map ThemesData.mk
      | _ => none
  | _ => none

/-! ### Operation sequences over the store and the pure replay model -/

/-- A mutating store operation from the spec's algebra. -/
inductive StoreOp where
  | appendOp (new : List Theme)
  | markOp (i : Int)

def runOp (s : ManagerState) : StoreOp → ManagerState
  | .appendOp new => add_themes s new
  | .markOp i => (mark_as_used s i).1

def runOps : ManagerState → List StoreOp → ManagerState
  | s, [] => s
  | s, op :: ops => runOps (runOp s op) ops

/-- The fresh in-memory model a replay is checked against: each topic reduced
to its id and effective used flag. -/
def pAbs (t : Theme) : Int × Bool := (t.id, themeUsed t)

def pMark (i : Int) : List (Int × Bool) → List (Int × Bool)
  | [] => []
  | p :: ps => if p.1 = i then (p.1, true) :: ps else p :: pMark i ps

def replayOp (l : List (Int × Bool)) : StoreOp → List (Int × Bool)
  | .appendOp new => l ++ new.map pAbs
  | .markOp i => pMark i l

def replay : List (Int × Bool) → List StoreOp → List (Int × Bool)
  | l, [] => l
  | l, op :: ops => replay (replayOp l op) ops

/-- Count of unused topics in the pure model. -/
def pUnused (l : List (Int × Bool)) : Nat := l.countP (fun p => !p.2)

/-! ### Strings: Python `str.strip` and the tagged-block extraction

`generate_article` matches `\[TAG\]\s*(.*?)\s*\[/TAG\]` with `re.DOTALL` and
takes `group(1).strip()`.  `re.search` finds the leftmost start: the first
occurrence of the open tag that is followed, anywhere later, by the close
tag; the non-greedy group then ends at the first subsequent close tag, and
the two greedy `\s*` plus the final `.strip()` trim the captured body, so the
extracted field is `pyStrip` of the text strictly between the two tags.
`findTagged` is that search; `none` is a failed `re.search`. -/

/-- The characters matched by the regex class `\s` / stripped by
`str.strip()` (ASCII range). -/
def isSpaceChar (ch : Char) : Bool :=
  ch = ' ' || ch = '\t' || ch = '\n' || ch = '\r' ||
    ch = Char.ofNat 11 || ch = Char.ofNat 12

/-- Python `str.strip()`. -/
def pyStrip (s : List Char) : List Char :=
  ((s.dropWhile isSpaceChar).reverse.dropWhile isSpaceChar).reverse

/-- Python `s.startswith(p)`. -/
def beginsWith : List Char → List Char → Bool
  | [], _ => true
  | _ :: _, [] => false
  | p :: ps, ch :: cs => p = ch && beginsWith ps cs

/-- Python `p in s` (substring occurrence). -/
def containsSub (pat : List Char) : List Char → Bool
  | [] => beginsWith pat []
  | s@(_ :: cs) => beginsWith pat s || containsSub pat cs

/-- The text of `s` strictly before the first occurrence of `pat`
(`none` when `pat` does not occur). -/
def takeBefore (pat : List Char) : List Char → Option (List Char)
  | [] => if beginsWith pat [] then some [] else none
  | x :: xs =>
    if beginsWith pat (x :: xs) then some []
    else (takeBefore pat xs).map (x :: ·)

/-- Model of `re.search(r'OPEN\s*(.*?)\s*CLOSE', s, re.DOTALL)`, returning the raw
text between the first open tag that has a later close tag and the first
close tag after it. -/
def findTagged (o c : List Char) : List Char → Option (List Char)
  | [] => none
  | x :: xs =>
    if beginsWith o (x :: xs) then
      match takeBefore c (List.drop o.length (x :: xs)) with
      | some body => some body
      | none => findTagged o c xs
    else findTagged o c xs

/-- Predicate: `s` contains an open tag followed (anywhere later) by a close tag — the
exact condition under which the extraction regex matches. -/
def HasBlock (o c s : List Char) : Prop := ∃ x y z, s = x ++ o ++ y ++ c ++ z

def titleOpenTag : List Char := "[TITLE]".toList
def titleCloseTag : List Char := "[/TITLE]".toList
def descriptionOpenTag : List Char := "[DESCRIPTION]".toList
def descriptionCloseTag : List Char := "[/DESCRIPTION]".toList
def tagsOpenTag : List Char := "[TAGS]".toList
def tagsCloseTag : List Char := "[/TAGS]".toList
def contentOpenTag : List Char := "[CONTENT]".toList
def contentCloseTag : List Char := "[/CONTENT]".toList

/-- The transient article record built by `ArticleGenerator.generate_article`. -/
structure Article where
  title : List Char
  description : List Char
  tags : List Char
  content : List Char
  theme_id : Int
deriving DecidableEq, Repr

/-- The response-parsing half of `ArticleGenerator.generate_article`
(the Gemini call itself is external; `responseText` is `response.text`).
If both the TITLE and CONTENT blocks match, all four blocks are extracted
independently, a missing DESCRIPTION/TAGS yielding the empty string;
otherwise the fallback uses the theme title and the whole raw completion. -/
def generate_article (theme : Theme) (responseText : List Char) : Article :=
  match findTagged titleOpenTag titleCloseTag responseText,
        findTagged contentOpenTag contentCloseTag responseText with
  | some tb, some cb =>
    { title := pyStrip tb
      description :=
        ((findTagged descriptionOpenTag descriptionCloseTag responseText).map
          pyStrip).getD []
      tags :=
        ((findTagged tagsOpenTag tagsCloseTag responseText).map pyStrip).getD []
      content := pyStrip cb
      theme_id := theme.id }
  | _, _ =>
    { title := theme.title
      description := []
      tags := []
      content := responseText
      theme_id := theme.id }

/-- Concrete fixture: a well-formed completion with TITLE and CONTENT blocks
and no DESCRIPTION/TAGS blocks. -/
def rawC4 : List Char :=
  "x[TITLE]\n T one \n[/TITLE]y[CONTENT] <p>B</p> [/CONTENT]z".toList

/-! ### Category classifier (`ArticleGenerator.determine_category`) -/

/-- Method `ArticleGenerator.CATEGORY_MAP`. -/
def CATEGORY_MAP : List (List Char × Int) :=
  [("DTM".toList, 7), ("ミキシング＆マスタリング".toList, 8),
   ("作曲・編曲".toList, 9), ("歌い手活動".toList, 1)]

/-- Python `dict.get(key)` over the category table. -/
def lookupCategory (k : List Char) : List (List Char × Int) → Option Int
  | [] => none
  | e :: es => if e.1 = k then some e.2 else lookupCategory k es

/-- The response-handling part of `ArticleGenerator.determine_category`
(title and theme only shape the prompt; `resp` is `response.text`, `none`
meaning the request raised and the `except` branch runs).  The Python
`if category_id:` truthiness test sends both a missing key and a zero id to
the default category 1 (歌い手活動). -/
def determine_category (resp : Option (List Char)) : Int :=
  match resp with
  | none => 1
  | some text =>
    match lookupCategory (pyStrip text) CATEGORY_MAP with
    | some cid => if cid ≠ 0 then cid else 1
    | none => 1

/-! ### Related-content selector (`ArticleGenerator.add_internal_links`) -/

/-- One entry of `existing_posts`: a published title and its URL. -/
structure PostRef where
  title : List Char
  link : List Char
deriving DecidableEq, Repr

/-- Python `text.split('\n')`. -/
def splitNL : List Char → List (List Char)
  | [] => [[]]
  | ch :: cs =>
    if ch = '\n' then [] :: splitNL cs
    else
      match splitNL cs with
      | [] => [[ch]]
      | l :: ls => (ch :: l) :: ls

/-- Python `[line.strip() for line in response.text.strip().split('\n')
if line.strip()]`. -/
def parseRelatedTitles (text : List Char) : List (List Char) :=
  ((splitNL (pyStrip text)).map pyStrip).filter (fun l => l ≠ [])

/-- The selection loop of `add_internal_links`: append each post whose title
occurs among the returned titles, breaking as soon as the accumulated list
reaches `max_links` (the break test runs after every iteration). -/
def selectRelated (titles : List (List Char)) (maxLinks : Nat) :
    List PostRef → List PostRef → List PostRef
  | acc, [] => acc
  | acc, p :: ps =>
    let acc' := if p.title ∈ titles then acc ++ [p] else acc
    if maxLinks ≤ acc'.length then acc'
    else selectRelated titles maxLinks acc' ps

/-- The `links_html` block built for the selected posts. -/
def linksHtml (posts : List PostRef) : List Char :=
  "\n\n<h2>あわせて読みたい</h2>\n<ul>\n".toList ++
    posts.foldl (fun acc p =>
      acc ++ "<li><a href=\"".toList ++ p.link ++ "\">".toList ++ p.title ++
        "</a></li>\n".toList) [] ++
  "</ul>".toList

/-- Method `ArticleGenerator.add_internal_links`; `resp` is the Gemini response text
(`none` = the request raised; the method's `except` returns the content
unchanged).  Note the selection loop walks `existing_posts` in full even
though only the first 30 titles were put in the prompt. -/
def add_internal_links (content : List Char) (title : List Char)
    (existing_posts : List PostRef) (max_links : Nat)
    (resp : Option (List Char)) : List Char :=
  if existing_posts.length < 3 then content
  else
    match resp with
    | none => content
    | some text =>
      let related_titles := parseRelatedTitles text
      let related_posts := selectRelated related_titles max_links [] existing_posts
      if related_posts = [] then content
      else content ++ linksHtml related_posts

/-- Concrete fixture for the C8 counterexample: post number `n`. -/
def mkPost (n : Nat) : PostRef := ⟨'T' :: List.replicate n 'a', "L".toList⟩

/-- Concrete fixture: 31 published posts with pairwise distinct titles. -/
def posts31 : List PostRef := (List.range 31).map mkPost

/-! ### Topic generator (`ThemeManager.generate_new_themes`)

The completion is stripped (`response.text.strip()`), an optional leading
markdown fence labelled json and an optional trailing fence are removed with
the two `re.sub` calls, and the remainder is handed to `json.loads`.
`parseJson` is an executable model of `json.loads` (objects, arrays, strings
with the common escapes, integers, booleans, null; the whole input must be
consumed).  The parsed array is converted element-wise, then ids and the
`used` flag are assigned by the `enumerate` loop. -/

/-- The whitespace characters `json.loads` skips between tokens. -/
def isJsonWs (ch : Char) : Bool :=
  ch = ' ' || ch = '\t' || ch = '\n' || ch = '\r'

def fenceOpenPat : List Char := "```json".toList

def ticks3 : List Char := "```".toList

/-- Model of `re.sub(r'^```json\s*', '', text)`. -/
def stripFenceOpen (s : List Char) : List Char :=
  if beginsWith fenceOpenPat s then
    (s.drop fenceOpenPat.length).dropWhile isSpaceChar
  else s

/-- Model of `re.sub(r'\s*```$', '', text)`: drop a trailing "```" together with the
maximal whitespace run before it. -/
def stripFenceClose (s : List Char) : List Char :=
  let r := s.reverse
  if beginsWith ticks3 r then ((r.drop 3).dropWhile isSpaceChar).reverse
  else s

def digitVal (ch : Char) : Option Nat :=
  if 48 ≤ ch.toNat ∧ ch.toNat ≤ 57 then some (ch.toNat - 48) else none

def parseDigits : List Char → Nat → (Nat × List Char)
  | [], acc => (acc, [])
  | ch :: cs, acc =>
    match digitVal ch with
    | some d => parseDigits cs (acc * 10 + d)
    | none => (acc, ch :: cs)

def parseNumber : List Char → Option (Int × List Char)
  | [] => none
  | '-' :: cs =>
    match cs with
    | [] => none
    | ch :: _ =>
      if (digitVal ch).isSome then
        let p := parseDigits cs 0
        some (-(p.1 : Int), p.2)
      else none
  | ch :: cs =>
    if (digitVal ch).isSome then
      let p := parseDigits (ch :: cs) 0
      some ((p.1 : Int), p.2)
    else none

def escChar (e : Char) : Option Char :=
  if e = '"' then some '"'
  else if e = '\\' then some '\\'
  else if e = '/' then some '/'
  else if e = 'n' then some '\n'
  else if e = 't' then some '\t'
  else if e = 'r' then some '\r'
  else if e = 'b' then some (Char.ofNat 8)
  else if e = 'f' then some (Char.ofNat 12)
  else none

def parseStringBody : List Char → Option (List Char × List Char)
  | [] => none
  | ch :: cs =>
    if ch = '"' then some ([], cs)
    else if ch = '\\' then
      match cs with
      | [] => none
      | e :: cs' =>
        match escChar e with
        | none => none
        | some d =>
          match parseStringBody cs' with
          | none => none
          | some (b, r) => some (d :: b, r)
    else
      match parseStringBody cs with
      | none => none
      | some (b, r) => some (ch :: b, r)

mutual

def parseVal : Nat → List Char → Option (Jv × List Char)
  | 0, _ => none
  | fuel + 1, s =>
    let s1 := s.dropWhile isJsonWs
    match s1 with
    | [] => none
    | ch :: cs =>
      if ch = '"' then
        match parseStringBody cs with
        | some (b, r) => some (.jstr b, r)
        | none => none
      else if ch = '[' then
        let s2 := cs.dropWhile isJsonWs
        match s2 with
        | ']' :: r => some (.jarr [], r)
        | _ =>
          match parseArrItems fuel s2 with
          | some (vs, r) => some (.jarr vs, r)
          | none => none
      else if ch = Char.ofNat 123 then
        let s2 := cs.dropWhile isJsonWs
        match s2 with
        | [] => none
        | c2 :: r =>
          if c2 = Char.ofNat 125 then some (.jobj [], r)
          else
            match parseObjItems fuel s2 with
            | some (fs, r2) => some (.jobj fs, r2)
            | none => none
      else if beginsWith "true".toList s1 then some (.jbool true) |>.map (·, s1.drop 4)
      else if beginsWith "false".toList s1 then some (.jbool false) |>.map (·, s1.drop 5)
      else if beginsWith "null".toList s1 then some Jv.jnull |>.map (·, s1.drop 4)
      else
        match parseNumber s1 with
        | some (n, r) => some (.jnum n, r)
        | none => none

def parseArrItems : Nat → List Char → Option (List Jv × List Char)
  | 0, _ => none
  | fuel + 1, s =>
    match parseVal fuel s with
    | none => none
    | some (v, r) =>
      match r.dropWhile isJsonWs with
      | ',' :: r2 =>
        match parseArrItems fuel (r2.dropWhile isJsonWs) with
        | some (vs, r3) => some (v :: vs, r3)
        | none => none
      | ']' :: r2 => some ([v], r2)
      | _ => none

def parseObjItems : Nat → List Char → Option (List (List Char × Jv) × List Char)
  | 0, _ => none
  | fuel + 1, s =>
    match s with
    | '"' :: cs =>
      match parseStringBody cs with
      | none => none
      | some (k, r) =>
        match r.dropWhile isJsonWs with
        | ':' :: r2 =>
          match parseVal fuel r2 with
          | none => none
          | some (v, r3) =>
            match r3.dropWhile isJsonWs with
            | [] => none
            | ',' :: r4 =>
              match parseObjItems fuel (r4.dropWhile isJsonWs) with
              | some (fs, r5) => some ((k, v) :: fs, r5)
              | none => none
            | c2 :: r4 =>
              if c2 = Char.ofNat 125 then some ([(k, v)], r4)
              else none
        | _ => none
    | _ => none

end

/-- Model of `json.loads`: parse one complete JSON document; anything but trailing
whitespace left over is an error. -/
def parseJson (s : List Char) : Option Jv :=
  match parseVal (2 * s.length + 2) s with
  | some (v, r) => if r.dropWhile isJsonWs = [] then some v else none
  | none => none

/-- One parsed element of the generated array, before ids are assigned. -/
structure RawTheme where
  title : List Char
  keywords : List (List Char)
  target_pain : List Char
  approach : List Char
deriving DecidableEq, Repr

/-- Field access `theme_data['title']` etc. on one array element. -/
def jvToRawTheme : Jv → Option RawTheme
  | .jobj fs => do
      let ttl ← jLookup jKeyTitle fs >>= jAsStr
      let kws ← jLookup jKeyKeywords fs >>= jAsStrList
      let tp ← jLookup jKeyTargetPain fs >>= jAsStr
      let ap ← jLookup jKeyApproach fs >>= jAsStr
      some ⟨ttl, kws, tp, ap⟩
  | _ => none

def rawThemeList : List Jv → Option (List RawTheme)
  | [] => some []
  | v :: vs => do
      let t ← jvToRawTheme v
      let rest ← rawThemeList vs
      some (t :: rest)

def jvToRawThemes : Jv → Option (List RawTheme)
  | .jarr xs => rawThemeList xs
  | _ => none

/-- Python `max([t['id'] for t in existing_themes]) if existing_themes else 0`. -/
def maxThemeId : List Theme → Int
  | [] => 0
  | t :: ts => ts.foldl (fun a u => max a u.id) t.id

/-- The `for i, theme_data in enumerate(new_themes_data)` loop: sequential
ids above `maxId`, `used = False` on every generated theme. -/
def assignIds (maxId : Int) : Nat → List RawTheme → List Theme
  | _, [] => []
  | i, r :: rs =>
    ⟨maxId + i + 1, r.title, r.keywords, r.target_pain, r.approach, some false⟩ ::
      assignIds maxId (i + 1) rs

/-- Method `ThemeManager.generate_new_themes`; `respText` is `response.text`.  The
method reads but never mutates the store, so the state is returned unchanged;
the error case models the re-raised `json.JSONDecodeError` (or the `KeyError`
of a malformed element), carrying the fence-stripped text. -/
def generate_new_themes (s : ManagerState) (respText : List Char) :
    Except (List Char) (List Theme) × ManagerState :=
  let maxId := maxThemeId s.mem.themes
  let cleaned := stripFenceClose (stripFenceOpen (pyStrip respText))
  match parseJson cleaned with
  | none => (.error cleaned, s)
  | some jv =>
    match jvToRawThemes jv with
    | none => (.error cleaned, s)
    | some raws => (.ok (assignIds maxId 0 raws), s)

/-- Concrete fixture: a fenced completion with one well-formed element. -/
def respW : List Char :=
  "```json\n[\x7b\"title\":\"T\",\"keywords\":[\"k1\",\"k2\"],\"target_pain\":\"p\",\"approach\":\"a\"\x7d]\n```".toList

/-- The JSON value `respW` parses to. -/
def jvW : Jv :=
  Jv.jarr [Jv.jobj [(jKeyTitle, Jv.jstr "T".toList),
    (jKeyKeywords, Jv.jarr [Jv.jstr "k1".toList, Jv.jstr "k2".toList]),
    (jKeyTargetPain, Jv.jstr "p".toList),
    (jKeyApproach, Jv.jstr "a".toList)]]

/-- The element list `jvW` converts to. -/
def rawsW : List RawTheme :=
  [⟨"T".toList, ["k1".toList, "k2".toList], "p".toList, "a".toList⟩]

/-! ### Pipeline tail of `main` (after topic selection)

Lines 508–618 of `article_generator.py`: once a theme is selected, the run
generates the article, determines the category (best-effort), processes tags
(best-effort), adds internal links (best-effort), publishes, optionally sets
a featured image (best-effort, no store effect), and only then calls
`mark_as_used`.  Every external call is an oracle; `none` means the call
raised.  A raising `create_post` is caught by the outer `except`, which exits
1 without touching the store; the featured-image step sits in its own inner
`try` and cannot affect the store either way, so it needs no oracle. -/

/-- Result of `wp_client.create_post`. -/
structure PublishInfo where
  postId : Int
  link : List Char
deriving DecidableEq, Repr

/-- Oracle inputs for the external calls of the pipeline tail. -/
structure PipeOracles where
  articleResp : Option (List Char)
  categoryResp : Option (List Char)
  tagsResult : Option (List Int)
  postsResult : Option (List PostRef)
  linksResp : Option (List Char)
  publishResult : Option PublishInfo
deriving DecidableEq, Repr

/-- Observable events of one run, in order. -/
inductive PipeEvent where
  | articleFailed
  | published (categoryId : Int) (tagIds : List Int) (content : List Char)
  | publishFailed
  | markedUsed (id : Int)
  | exited (code : Nat)
deriving DecidableEq, Repr

/-- Final state, event trace and exit code of one run. -/
structure RunOutcome where
  state : ManagerState
  trace : List PipeEvent
  exitCode : Nat
deriving DecidableEq, Repr

/-- The tag-processing step of `main`: tags are looked up only when the
article carries a non-empty tag string; a failing lookup is caught and leaves
`tag_ids = []`. -/
def pipelineTagIds (article : Article) (tagsResult : Option (List Int)) :
    List Int :=
  if article.tags ≠ [] then
    match tagsResult with
    | some ids => ids
    | none => []
  else []

/-- The internal-links step of `main`: a failing `get_all_posts` (or an empty
post list) leaves the content unchanged, otherwise `add_internal_links` runs
with `max_links = 2`. -/
def pipelineContent (article : Article) (postsResult : Option (List PostRef))
    (linksResp : Option (List Char)) : List Char :=
  match postsResult with
  | none => article.content
  | some posts =>
    if posts = [] then article.content
    else add_internal_links article.content article.title posts 2 linksResp

/-- The tail of `main` after `get_next_theme` returned `theme`. -/
def run_after_selection (s : ManagerState) (theme : Theme) (o : PipeOracles) :
    RunOutcome :=
  match o.articleResp with
  | none => ⟨s, [.articleFailed, .exited 1], 1⟩
  | some txt =>
    let article := generate_article theme txt
    let categoryId := determine_category o.categoryResp
    let tagIds := pipelineTagIds article o.tagsResult
    let content1 := pipelineContent article o.postsResult o.linksResp
    match o.publishResult with
    | none => ⟨s, [.publishFailed, .exited 1], 1⟩
    | some _pr =>
      match mark_as_used s theme.id with
      | (s', .marked) =>
        ⟨s', [.published categoryId tagIds content1, .markedUsed theme.id], 0⟩
      | (s', .notFound) =>
        ⟨s', [.published categoryId tagIds content1, .exited 1], 1⟩

/-- Concrete fixture: oracles where the classification request fails but
everything else, publish included, succeeds. -/
def oClassFail : PipeOracles :=
  ⟨some "whatever".toList, none, some [], some [], some [], some ⟨10, "u".toList⟩⟩

/-- Concrete fixture: oracles where the publish call fails. -/
def oPubFail : PipeOracles :=
  ⟨some "whatever".toList, some "DTM".toList, some [], some [], some [], none⟩

/-! ### Lemmas about the store loops -/

theorem markLoop_none_iff (i : Int) (ts : List Theme) :
    markLoop i ts = none ↔ ∀ t ∈ ts, t.id ≠ i := by
  induction ts with
  | nil => simp [markLoop]
  | cons t ts ih =>
    by_cases h : t.id = i
    · simp [markLoop, h]
    · simp [markLoop, h, ih]

theorem markLoop_some (i : Int) (ts ts' : List Theme)
    (h : markLoop i ts = some ts') :
    ∃ pre t post, ts = pre ++ t :: post ∧ (∀ u ∈ pre, u.id ≠ i) ∧ t.id = i ∧
      ts' = pre ++ { t with used := some true } :: post := by
  induction ts generalizing ts' with
  | nil => simp [markLoop] at h
  | cons t ts ih =>
    by_cases hid : t.id = i
    · rw [markLoop, if_pos hid, Option.some.injEq] at h
      exact ⟨[], t, ts, by simp, by simp, hid, by simp [h.symm]⟩
    · rw [markLoop, if_neg hid, Option.map_eq_some'] at h
      obtain ⟨ts'', hts'', rfl⟩ := h
      obtain ⟨pre, u, post, hsplit, hpre, hu, hres⟩ := ih ts'' hts''
      refine ⟨t :: pre, u, post, by simp [hsplit], ?_, hu, by simp [hres]⟩
      intro x hx
      rcases List.mem_cons.mp hx with rfl | hx
      · exact hid
      · exact hpre x hx

theorem findFirstUnused_eq_none_iff (ts : List Theme) :
    findFirstUnused ts = none ↔ ∀ t ∈ ts, themeUsed t = true := by
  induction ts with
  | nil => simp [findFirstUnused]
  | cons t ts ih =>
    by_cases h : themeUsed t
    · simp [findFirstUnused, h, ih]
    · simp [findFirstUnused, h]

theorem findFirstUnused_eq_some (ts : List Theme) (t : Theme)
    (h : findFirstUnused ts = some t) :
    ∃ pre post, ts = pre ++ t :: post ∧ (∀ u ∈ pre, themeUsed u = true) ∧
      themeUsed t = false := by
  induction ts with
  | nil => simp [findFirstUnused] at h
  | cons u ts ih =>
    by_cases hu : themeUsed u
    · rw [findFirstUnused, if_pos hu] at h
      obtain ⟨pre, post, hsplit, hpre, ht⟩ := ih h
      refine ⟨u :: pre, post, by simp [hsplit], ?_, ht⟩
      intro x hx
      rcases List.mem_cons.mp hx with rfl | hx
      · exact hu
      · exact hpre x hx
    · rw [findFirstUnused, if_neg hu, Option.some.injEq] at h
      subst h
      exact ⟨[], ts, rfl, by simp, by simpa using hu⟩

/-! ### C1: `mark_as_used` -/

/-- C1. For every store state and id: when no theme carries the id,
`mark_as_used` raises (`notFound`) and returns with both the in-memory and the
persisted store exactly as they were; when some theme carries the id, the
call succeeds, the first theme with that id has its `used` flag set to `true`
with every other field intact, every other theme is unchanged, and the file is
rewritten to the full new in-memory snapshot. -/
theorem mark_as_used_spec (s : ManagerState) (i : Int) :
    ((∀ t ∈ s.mem.themes, t.id ≠ i) →
      mark_as_used s i = (s, MarkOutcome.notFound)) ∧
    ((∃ t ∈ s.mem.themes, t.id = i) →
      ∃ pre t post, s.mem.themes = pre ++ t :: post ∧ (∀ u ∈ pre, u.id ≠ i) ∧
        t.id = i ∧
        (mark_as_used s i).2 = MarkOutcome.marked ∧
        (mark_as_used s i).1.mem.themes =
          pre ++ { t with used := some true } :: post ∧
        (mark_as_used s i).1.file = (mark_as_used s i).1.mem) := by
  constructor
  · intro h
    have hnone : markLoop i s.mem.themes = none := (markLoop_none_iff i _).mpr h
    simp [mark_as_used, hnone]
  · intro h
    obtain ⟨t0, ht0, hid0⟩ := h
    rcases heq : markLoop i s.mem.themes with _ | ts'
    · exact absurd hid0 ((markLoop_none_iff i _).mp heq t0 ht0)
    · obtain ⟨pre, t, post, hsplit, hpre, hid, hres⟩ := markLoop_some i _ _ heq
      refine ⟨pre, t, post, hsplit, hpre, hid, ?_, ?_, ?_⟩ <;>
        simp [mark_as_used, heq, save_themes, hres]

/-- Closed witness for C1 at a concrete two-theme store: marking an absent id
raises and leaves the state intact; marking a present id succeeds. -/
theorem mark_as_used_spec_witness :
    mark_as_used wStore 9 = (wStore, MarkOutcome.notFound) ∧
    (mark_as_used wStore 2).2 = MarkOutcome.marked := by
  constructor
  · exact (mark_as_used_spec wStore 9).1 (by decide)
  · obtain ⟨pre, t, post, -, -, -, hmk, -, -⟩ :=
      (mark_as_used_spec wStore 2).2 ⟨wTheme2, by decide, by decide⟩
    exact hmk

/-! ### C2: `get_next_theme` -/

/-- C2. `get_next_theme` returns the lowest-index theme whose `used` flag
is false (all earlier themes are used), and returns `none` exactly when every
theme is used.  The operation is embedded as a pure function of the state that
returns no successor state, which is the read-only / deterministic contract:
two calls without an intervening mutation are literally the same value. -/
theorem get_next_theme_spec (s : ManagerState) :
    (∀ t, get_next_theme s = some t →
      ∃ pre post, s.mem.themes = pre ++ t :: post ∧
        (∀ u ∈ pre, themeUsed u = true) ∧ themeUsed t = false) ∧
    (get_next_theme s = none ↔ ∀ t ∈ s.mem.themes, themeUsed t = true) := by
  exact ⟨fun t h => findFirstUnused_eq_some _ t h, findFirstUnused_eq_none_iff _⟩

/-- Closed witness for C2: on the concrete store the scan selects `wTheme1`
and the all-used characterisation is exercised on an all-used store. -/
theorem get_next_theme_spec_witness :
    (∃ pre post, wStore.mem.themes = pre ++ wTheme1 :: post ∧
      (∀ u ∈ pre, themeUsed u = true) ∧ themeUsed wTheme1 = false) ∧
    get_next_theme ⟨⟨[⟨5, [], [], [], [], some true⟩]⟩, ⟨[]⟩⟩ = none := by
  constructor
  · exact (get_next_theme_spec wStore).1 wTheme1 (by decide)
  · exact (get_next_theme_spec _).2.mpr (by decide)

/-! ### C10: records without a `used` key read as unused -/

theorem themeUsed_scrubTheme (t : Theme) :
    themeUsed (scrubTheme t) = themeUsed t := by
  cases h : t.used <;> simp [scrubTheme, h, themeUsed]

theorem findFirstUnused_map_scrub (ts : List Theme) :
    findFirstUnused (ts.map scrubTheme) = (findFirstUnused ts).map scrubTheme := by
  induction ts with
  | nil => rfl
  | cons t ts ih =>
    by_cases h : themeUsed t
    · rw [List.map_cons, findFirstUnused, themeUsed_scrubTheme, if_pos h,
        findFirstUnused, if_pos h, ih]
    · rw [List.map_cons, findFirstUnused, themeUsed_scrubTheme, if_neg h,
        findFirstUnused, if_neg h, Option.map_some']

/-- C10. A theme record lacking the `used` key behaves exactly like one
with `used = false` under every read operation: replacing each such record by
its explicit `used: false` form changes neither `get_unused_count` (the record
is counted as unused) nor the outcome of `get_next_theme` (the record is
selected in exactly the same situations, `nextUnused` returning the
normalised record precisely when it returned the original one). -/
theorem missing_used_key_reads_as_unused (s : ManagerState) :
    get_unused_count ⟨⟨s.mem.themes.map scrubTheme⟩, s.file⟩ = get_unused_count s ∧
    get_next_theme ⟨⟨s.mem.themes.map scrubTheme⟩, s.file⟩ =
      (get_next_theme s).map scrubTheme := by
  constructor
  · unfold get_unused_count
    rw [List.countP_map]
    exact List.countP_congr (fun t _ => by
      simp only [Function.comp_apply, themeUsed_scrubTheme])
  · exact findFirstUnused_map_scrub s.mem.themes

/-! ### C9: persistence invariant, round-trip, replay -/

theorem decodeTheme_encodeTheme (t : Theme) :
    decodeTheme (encodeTheme t) = some t := by
  have hstr : ∀ xs : List (List Char), strList (xs.map Jv.jstr) = some xs := by
    intro xs
    induction xs with
    | nil => rfl
    | cons x xs ih => simp [strList, jAsStr, ih]
  obtain ⟨i, ttl, kws, tp, ap, u⟩ := t
  cases u <;>
    simp [encodeTheme, decodeTheme, jLookup, jKeyId, jKeyTitle, jKeyKeywords,
      jKeyTargetPain, jKeyApproach, jKeyUsed, jAsInt, jAsStr, jAsStrList,
      decodeUsedField, hstr]

theorem decodeThemeList_encode (ts : List Theme) :
    decodeThemeList (ts.map encodeTheme) = some ts := by
  induction ts with
  | nil => rfl
  | cons t ts ih => simp [decodeThemeList, decodeTheme_encodeTheme, ih]

theorem decodeThemesData_encodeThemesData (d : ThemesData) :
    decodeThemesData (encodeThemesData d) = some d := by
  simp [encodeThemesData, decodeThemesData, jLookup, jKeyThemes,
    decodeThemeList_encode]

theorem mark_as_used_fst_themes (s : ManagerState) (i : Int) :
    (mark_as_used s i).1.mem.themes =
      (markLoop i s.mem.themes).getD s.mem.themes := by
  cases heq : markLoop i s.mem.themes <;> simp [mark_as_used, heq, save_themes]

theorem pMark_map_pAbs (i : Int) (ts : List Theme) :
    pMark i (ts.map pAbs) = ((markLoop i ts).getD ts).map pAbs := by
  induction ts with
  | nil => rfl
  | cons t ts ih =>
    by_cases hid : t.id = i
    · simp [pMark, pAbs, markLoop, hid, themeUsed]
    · cases heq : markLoop i ts with
      | none =>
        simp only [heq, Option.getD_none] at ih
        simp [pMark, pAbs, markLoop, hid, heq, ih]
      | some ts' =>
        simp only [heq, Option.getD_some] at ih
        simp [pMark, pAbs, markLoop, hid, heq, ih]

theorem runOp_sim (s : ManagerState) (op : StoreOp) (h : s.file = s.mem) :
    (runOp s op).file = (runOp s op).mem ∧
    (runOp s op).mem.themes.map pAbs = replayOp (s.mem.themes.map pAbs) op := by
  cases op with
  | appendOp new => simp [runOp, add_themes, save_themes, replayOp]
  | markOp i =>
    constructor
    · cases heq : markLoop i s.mem.themes <;>
        simp [runOp, mark_as_used, heq, save_themes, h]
    · rw [runOp, mark_as_used_fst_themes, replayOp, pMark_map_pAbs]

theorem runOps_sim (ops : List StoreOp) :
    ∀ s : ManagerState, s.file = s.mem →
      (runOps s ops).file = (runOps s ops).mem ∧
      (runOps s ops).mem.themes.map pAbs = replay (s.mem.themes.map pAbs) ops := by
  induction ops with
  | nil => exact fun s h => ⟨h, rfl⟩
  | cons op ops ih =>
    intro s h
    obtain ⟨h1, h2⟩ := runOp_sim s op h
    obtain ⟨h3, h4⟩ := ih (runOp s op) h1
    exact ⟨h3, by rw [runOps, h4, h2, replay]⟩

theorem get_unused_count_pAbs (s : ManagerState) :
    get_unused_count s = pUnused (s.mem.themes.map pAbs) := by
  unfold get_unused_count pUnused
  rw [List.countP_map]
  exact (List.countP_congr (fun t _ => by simp [Function.comp_apply, pAbs])).symm

/-- C9. From any synced state, every sequence of `append`/`markUsed`
operations (each of which rewrites the full snapshot on mutation, as does
`reset_all_themes`) keeps the persisted file equal to the in-memory store;
serialising the final in-memory store to its JSON document and reading it
back yields the same store (`load(save(S)) = S`); and `get_unused_count`
equals the unused count obtained by replaying the same operations against a
fresh pure model of the topics. -/
theorem store_persistence_spec (s : ManagerState) (ops : List StoreOp)
    (h : s.file = s.mem) :
    (runOps s ops).file = (runOps s ops).mem ∧
    decodeThemesData (encodeThemesData (runOps s ops).mem) =
      some (runOps s ops).mem ∧
    get_unused_count (runOps s ops) =
      pUnused (replay (s.mem.themes.map pAbs) ops) ∧
    (∀ s' : ManagerState,
      (reset_all_themes s').file = (reset_all_themes s').mem) := by
  obtain ⟨h1, h2⟩ := runOps_sim ops s h
  refine ⟨h1, decodeThemesData_encodeThemesData _, ?_, fun s' => rfl⟩
  rw [get_unused_count_pAbs, h2]

/-- Closed witness for C9: a concrete append followed by a mark, checked
against the pure replay. -/
theorem store_persistence_spec_witness :
    (runOps wStore [StoreOp.appendOp [⟨3, [], [], [], [], some false⟩],
        StoreOp.markOp 1]).file =
      (runOps wStore [StoreOp.appendOp [⟨3, [], [], [], [], some false⟩],
        StoreOp.markOp 1]).mem ∧
    get_unused_count (runOps wStore
        [StoreOp.appendOp [⟨3, [], [], [], [], some false⟩], StoreOp.markOp 1]) =
      pUnused (replay (wStore.mem.themes.map pAbs)
        [StoreOp.appendOp [⟨3, [], [], [], [], some false⟩], StoreOp.markOp 1]) := by
  have h := store_persistence_spec wStore
    [StoreOp.appendOp [⟨3, [], [], [], [], some false⟩], StoreOp.markOp 1] rfl
  exact ⟨h.1, h.2.2.1⟩

/-! ### String-matching lemmas for the extractor -/

theorem beginsWith_iff (p : List Char) :
    ∀ s, beginsWith p s = true ↔ ∃ r, s = p ++ r := by
  induction p with
  | nil => exact fun s => ⟨fun _ => ⟨s, rfl⟩, fun _ => rfl⟩
  | cons p ps ih =>
    intro s
    cases s with
    | nil =>
      constructor
      · intro h; exact absurd h (by simp [beginsWith])
      · rintro ⟨r, hr⟩; simp at hr
    | cons x xs =>
      rw [beginsWith, Bool.and_eq_true, decide_eq_true_eq, ih xs]
      constructor
      · rintro ⟨rfl, r, rfl⟩
        exact ⟨r, rfl⟩
      · rintro ⟨r, hr⟩
        rw [List.cons_append, List.cons.injEq] at hr
        exact ⟨hr.1.symm, r, hr.2⟩

theorem containsSub_of_beginsWith {p s : List Char}
    (h : beginsWith p s = true) : containsSub p s = true := by
  cases s with
  | nil => exact h
  | cons x xs => simp [containsSub, h]

theorem containsSub_nil_pat (s : List Char) : containsSub [] s = true := by
  cases s <;> simp [containsSub, beginsWith]

theorem takeBefore_some_decomp (pat : List Char) :
    ∀ s b, takeBefore pat s = some b → ∃ z, s = b ++ pat ++ z := by
  intro s
  induction s with
  | nil =>
    intro b h
    rw [takeBefore] at h
    by_cases hb : beginsWith pat []
    · rw [if_pos hb, Option.some.injEq] at h
      obtain ⟨r, hr⟩ := (beginsWith_iff pat []).mp hb
      rcases List.append_eq_nil.mp hr.symm with ⟨rfl, rfl⟩
      exact ⟨[], by simp [h.symm]⟩
    · rw [if_neg hb] at h; exact absurd h (by simp)
  | cons x xs ih =>
    intro b h
    rw [takeBefore] at h
    by_cases hb : beginsWith pat (x :: xs)
    · rw [if_pos hb, Option.some.injEq] at h
      obtain ⟨r, hr⟩ := (beginsWith_iff pat _).mp hb
      exact ⟨r, by simp [h.symm, hr]⟩
    · rw [if_neg hb, Option.map_eq_some'] at h
      obtain ⟨b', hb', rfl⟩ := h
      obtain ⟨z, hz⟩ := ih b' hb'
      exact ⟨z, by simp [hz]⟩

theorem takeBefore_none_iff (pat : List Char) :
    ∀ s, takeBefore pat s = none ↔ ¬∃ u v, s = u ++ pat ++ v := by
  intro s
  induction s with
  | nil =>
    rw [takeBefore]
    by_cases hb : beginsWith pat []
    · obtain ⟨r, hr⟩ := (beginsWith_iff pat []).mp hb
      rcases List.append_eq_nil.mp hr.symm with ⟨rfl, rfl⟩
      simp [beginsWith]
    · rw [if_neg hb]
      simp only [true_iff]
      rintro ⟨u, v, huv⟩
      have h3 : u = [] ∧ pat = [] ∧ v = [] := by simpa using huv.symm
      exact hb (by rw [h3.2.1]; decide)
  | cons x xs ih =>
    rw [takeBefore]
    by_cases hb : beginsWith pat (x :: xs)
    · rw [if_pos hb]
      obtain ⟨r, hr⟩ := (beginsWith_iff pat _).mp hb
      constructor
      · intro h; exact absurd h (by simp)
      · intro h; exact absurd ⟨[], r, by simp [hr]⟩ h
    · rw [if_neg hb, Option.map_eq_none', ih]
      constructor
      · rintro hno ⟨u, v, huv⟩
        cases u with
        | nil =>
          exact hb ((beginsWith_iff pat _).mpr ⟨v, by simpa using huv⟩)
        | cons u0 u' =>
          rw [List.cons_append, List.cons_append] at huv
          exact hno ⟨u', v, (List.cons.injEq .. ▸ huv).2⟩
      · rintro hno ⟨u, v, huv⟩
        exact hno ⟨x :: u, v, by simp [huv]⟩

theorem findTagged_none_iff (o c : List Char) (ho : o ≠ []) :
    ∀ s, findTagged o c s = none ↔ ¬ HasBlock o c s := by
  intro s
  induction s with
  | nil =>
    rw [findTagged]
    simp only [true_iff]
    rintro ⟨x, y, z, hxyz⟩
    have h5 : x = [] ∧ o = [] ∧ y = [] ∧ c = [] ∧ z = [] := by
      simpa using hxyz.symm
    exact ho h5.2.1
  | cons x xs ih =>
    rw [findTagged]
    by_cases hb : beginsWith o (x :: xs)
    · obtain ⟨r, hr⟩ := (beginsWith_iff o _).mp hb
      have hdrop : List.drop o.length (x :: xs) = r := by
        rw [hr]; exact List.drop_left o r
      rw [if_pos hb, hdrop]
      rcases htb : takeBefore c r with _ | b
      · show findTagged o c xs = none ↔ ¬ HasBlock o c (x :: xs)
        rw [ih]
        have hiff : HasBlock o c (x :: xs) ↔ HasBlock o c xs := by
          constructor
          · rintro ⟨u, y, z, huv⟩
            cases u with
            | nil =>
              exfalso
              simp only [List.nil_append] at huv
              have hflat : o ++ r = o ++ (y ++ (c ++ z)) := by
                rw [← hr, huv]
                simp [List.append_assoc]
              have hr2 : r = y ++ (c ++ z) := List.append_cancel_left hflat
              exact (takeBefore_none_iff c r).mp htb
                ⟨y, z, by simp [hr2, List.append_assoc]⟩
            | cons u0 u' =>
              injection (by simpa only [List.cons_append] using huv :
                x :: xs = u0 :: (u' ++ o ++ y ++ c ++ z)) with h1 h2
              exact ⟨u', y, z, h2⟩
          · rintro ⟨u, y, z, huv⟩
            exact ⟨x :: u, y, z, by simp [huv]⟩
        rw [hiff]
      · show some b = none ↔ ¬ HasBlock o c (x :: xs)
        constructor
        · intro h; exact absurd h (by simp)
        · intro h
          obtain ⟨z, hz⟩ := takeBefore_some_decomp c r b htb
          exact absurd ⟨[], b, z, by simp [hr, hz, List.append_assoc]⟩ h
    · rw [if_neg hb, ih]
      have hiff : HasBlock o c (x :: xs) ↔ HasBlock o c xs := by
        constructor
        · rintro ⟨u, y, z, huv⟩
          cases u with
          | nil =>
            exact absurd ((beginsWith_iff o _).mpr ⟨y ++ c ++ z, by
              simpa [List.append_assoc] using huv⟩) hb
          | cons u0 u' =>
            injection (by simpa only [List.cons_append] using huv :
              x :: xs = u0 :: (u' ++ o ++ y ++ c ++ z)) with h1 h2
            exact ⟨u', y, z, h2⟩
        · rintro ⟨u, y, z, huv⟩
          exact ⟨x :: u, y, z, by simp [huv]⟩
      rw [hiff]

theorem beginsWith_take {p s : List Char} {n : Nat}
    (h : beginsWith p s = true) (hn : p.length ≤ n) :
    beginsWith p (s.take n) = true := by
  obtain ⟨r, rfl⟩ := (beginsWith_iff p s).mp h
  refine (beginsWith_iff p _).mpr ⟨r.take (n - p.length), ?_⟩
  rw [← List.take_append (i := n - p.length), Nat.add_sub_cancel' hn]

theorem take_marker (b c q : List Char) (hc : c ≠ []) :
    (b ++ c ++ q).take (b.length + c.length - 1) = b ++ c.dropLast := by
  have h1 : b.length + c.length - 1 = b.length + (c.length - 1) := by
    have : 1 ≤ c.length := List.length_pos.mpr hc
    omega
  rw [h1, List.append_assoc, List.take_append,
    List.take_append_eq_append_take, List.dropLast_eq_take]
  have h2 : c.length - 1 - c.length = 0 := by omega
  rw [h2, List.take_zero, List.append_nil]

theorem not_begins_mid (u pat q : List Char) (hu : u ≠ [])
    (h : containsSub pat (u ++ pat.dropLast) = false) :
    beginsWith pat (u ++ pat ++ q) = false := by
  rcases hpat : pat with _ | ⟨p0, pat'⟩
  · rw [hpat] at h
    exact absurd h (by simp [containsSub_nil_pat])
  · rw [← hpat]
    by_contra hbg
    rw [Bool.not_eq_false] at hbg
    have hlen : pat.length ≤ u.length + pat.length - 1 := by
      have : 1 ≤ u.length := List.length_pos.mpr hu
      omega
    have := beginsWith_take hbg hlen
    rw [take_marker u pat q (by rw [hpat]; simp)] at this
    exact absurd (containsSub_of_beginsWith this) (by simp [h])

theorem takeBefore_at_marker (c : List Char) :
    ∀ b q, containsSub c (b ++ c.dropLast) = false →
      takeBefore c (b ++ c ++ q) = some b := by
  intro b
  induction b with
  | nil =>
    intro q h
    rcases hc : c with _ | ⟨c0, c'⟩
    · rw [hc] at h
      exact absurd h (by simp [containsSub_nil_pat])
    · rw [← hc]
      have hbg : beginsWith c (c ++ q) = true := (beginsWith_iff c _).mpr ⟨q, rfl⟩
      have hcons : c ++ q = c0 :: (c' ++ q) := by rw [hc]; simp
      have hgoal : ([] : List Char) ++ c ++ q = c0 :: (c' ++ q) := by
        rw [List.nil_append, hcons]
      rw [hgoal, takeBefore, if_pos (hcons ▸ hbg)]
  | cons x b' ih =>
    intro q h
    rw [List.cons_append] at h
    rw [containsSub, Bool.or_eq_false_iff] at h
    have hbg : beginsWith c (x :: (b' ++ c ++ q)) = false := by
      have h0 := not_begins_mid (x :: b') c q (by simp) (by
        rw [List.cons_append, containsSub, Bool.or_eq_false_iff]
        exact h)
      simpa [List.append_assoc] using h0
    have hsh : (x :: b') ++ c ++ q = x :: (b' ++ c ++ q) := by simp
    rw [hsh, takeBefore, if_neg (by rw [hbg]; simp)]
    rw [ih q h.2, Option.map_some']

theorem findTagged_at_marker (o c : List Char) :
    ∀ p b q, containsSub o (p ++ o.dropLast) = false →
      containsSub c (b ++ c.dropLast) = false →
      findTagged o c (p ++ o ++ b ++ c ++ q) = some b := by
  intro p
  induction p with
  | nil =>
    intro b q h1 h2
    rcases hoc : o with _ | ⟨o0, o'⟩
    · rw [hoc] at h1
      exact absurd h1 (by simp [containsSub_nil_pat])
    · rw [← hoc]
      have hbg : beginsWith o (o ++ (b ++ c ++ q)) = true :=
        (beginsWith_iff o _).mpr ⟨b ++ c ++ q, rfl⟩
      have hcons : o ++ (b ++ c ++ q) = o0 :: (o' ++ (b ++ c ++ q)) := by
        rw [hoc]; simp
      have hshape : ([] : List Char) ++ o ++ b ++ c ++ q = o0 :: (o' ++ (b ++ c ++ q)) := by
        rw [List.nil_append, List.append_assoc, List.append_assoc,
          ← List.append_assoc b, hcons]
      rw [hshape]
      rw [findTagged, if_pos (hcons ▸ hbg)]
      have hdrop : List.drop o.length (o0 :: (o' ++ (b ++ c ++ q))) = b ++ c ++ q := by
        rw [← hcons, List.drop_left o]
      rw [hdrop, takeBefore_at_marker c b q h2]
  | cons x p' ih =>
    intro b q h1 h2
    rw [List.cons_append] at h1
    rw [containsSub, Bool.or_eq_false_iff] at h1
    have hbg : beginsWith o (x :: (p' ++ o ++ b ++ c ++ q)) = false := by
      have h0 := not_begins_mid (x :: p') o (b ++ c ++ q) (by simp) (by
        rw [List.cons_append, containsSub, Bool.or_eq_false_iff]
        exact h1)
      have hre : (x :: p') ++ o ++ (b ++ c ++ q) = x :: (p' ++ o ++ b ++ c ++ q) := by
        simp [List.append_assoc]
      rwa [hre] at h0
    have hshape : (x :: p') ++ o ++ b ++ c ++ q = x :: (p' ++ o ++ b ++ c ++ q) := by
      simp [List.append_assoc]
    rw [hshape, findTagged, if_neg (by rw [hbg]; simp)]
    exact ih b q h1.2 h2

/-! ### C3: extractor fallback path -/

/-- C3. When the completion contains no `[TITLE]...[/TITLE]` block or no
`[CONTENT]...[/CONTENT]` block (no open tag followed by a close tag — which
is exactly when `re.search` fails, however many partial or malformed tags the
text contains), the extractor returns the fallback article: `content` is the
raw completion verbatim, `title` is the topic's title, and `description` and
`tags` are empty.  The function is total: this path cannot raise. -/
theorem generate_article_fallback (raw : List Char) (theme : Theme)
    (h : ¬ HasBlock titleOpenTag titleCloseTag raw ∨
         ¬ HasBlock contentOpenTag contentCloseTag raw) :
    generate_article theme raw =
      ⟨theme.title, [], [], raw, theme.id⟩ := by
  rcases h with h | h
  · have hnone : findTagged titleOpenTag titleCloseTag raw = none :=
      (findTagged_none_iff _ _ (by decide) raw).mpr h
    rw [generate_article, hnone]
  · have hnone : findTagged contentOpenTag contentCloseTag raw = none :=
      (findTagged_none_iff _ _ (by decide) raw).mpr h
    rw [generate_article, hnone]
    cases findTagged titleOpenTag titleCloseTag raw <;> rfl

/-- Closed witness for C3: a completion with only partial/malformed tags
degrades to the whole-text fallback. -/
theorem generate_article_fallback_witness :
    generate_article wTheme1 "[TITLE] broken [/TITL [CONTENT] no close".toList =
      ⟨wTheme1.title, [], [], "[TITLE] broken [/TITL [CONTENT] no close".toList,
        wTheme1.id⟩ :=
  generate_article_fallback _ wTheme1
    (Or.inl ((findTagged_none_iff _ _ (by decide) _).mp (by decide)))

/-! ### C4: extractor primary path -/

/-- C4. For a completion containing a well-formed `[TITLE]...[/TITLE]`
block and a well-formed `[CONTENT]...[/CONTENT]` block — given by explicit
decompositions in which no earlier (possibly overlapping) occurrence of the
open tag precedes the block and no earlier occurrence of the close tag cuts
the body, whatever whitespace or newlines the bodies contain — the extractor
returns the trimmed block bodies as `title` and `content`; an absent
`[DESCRIPTION]` or `[TAGS]` block yields the empty string for that field; the
article carries the topic's id, and no error is possible (the extractor is a
total function). -/
theorem generate_article_extraction (raw : List Char) (theme : Theme)
    (pt tb qt pc cb qc : List Char)
    (hT : raw = pt ++ titleOpenTag ++ tb ++ titleCloseTag ++ qt)
    (hT1 : containsSub titleOpenTag (pt ++ titleOpenTag.dropLast) = false)
    (hT2 : containsSub titleCloseTag (tb ++ titleCloseTag.dropLast) = false)
    (hC : raw = pc ++ contentOpenTag ++ cb ++ contentCloseTag ++ qc)
    (hC1 : containsSub contentOpenTag (pc ++ contentOpenTag.dropLast) = false)
    (hC2 : containsSub contentCloseTag (cb ++ contentCloseTag.dropLast) = false) :
    (generate_article theme raw).title = pyStrip tb ∧
    (generate_article theme raw).content = pyStrip cb ∧
    (¬ HasBlock descriptionOpenTag descriptionCloseTag raw →
      (generate_article theme raw).description = []) ∧
    (¬ HasBlock tagsOpenTag tagsCloseTag raw →
      (generate_article theme raw).tags = []) ∧
    (generate_article theme raw).theme_id = theme.id := by
  have hTf : findTagged titleOpenTag titleCloseTag raw = some tb := by
    rw [hT]; exact findTagged_at_marker _ _ pt tb qt hT1 hT2
  have hCf : findTagged contentOpenTag contentCloseTag raw = some cb := by
    rw [hC]; exact findTagged_at_marker _ _ pc cb qc hC1 hC2
  refine ⟨?_, ?_, ?_, ?_, ?_⟩
  · rw [generate_article, hTf, hCf]
  · rw [generate_article, hTf, hCf]
  · intro hd
    have hdn : findTagged descriptionOpenTag descriptionCloseTag raw = none :=
      (findTagged_none_iff _ _ (by decide) raw).mpr hd
    rw [generate_article, hTf, hCf]
    simp [hdn]
  · intro hg
    have hgn : findTagged tagsOpenTag tagsCloseTag raw = none :=
      (findTagged_none_iff _ _ (by decide) raw).mpr hg
    rw [generate_article, hTf, hCf]
    simp [hgn]
  · rw [generate_article, hTf, hCf]

/-- Closed witness for C4 on `rawC4`: trimmed bodies are extracted and the
absent optional blocks give empty strings. -/
theorem generate_article_extraction_witness :
    (generate_article wTheme1 rawC4).title = "T one".toList ∧
    (generate_article wTheme1 rawC4).content = "<p>B</p>".toList ∧
    (generate_article wTheme1 rawC4).description = [] ∧
    (generate_article wTheme1 rawC4).tags = [] := by
  have h := generate_article_extraction rawC4 wTheme1
    "x".toList "\n T one \n".toList "y[CONTENT] <p>B</p> [/CONTENT]z".toList
    "x[TITLE]\n T one \n[/TITLE]y".toList " <p>B</p> ".toList "z".toList
    (by decide) (by decide) (by decide) (by decide) (by decide) (by decide)
  exact ⟨h.1.trans (by decide), h.2.1.trans (by decide),
    h.2.2.1 ((findTagged_none_iff _ _ (by decide) _).mp (by decide)),
    h.2.2.2.1 ((findTagged_none_iff _ _ (by decide) _).mp (by decide))⟩

/-! ### C7: category classifier -/

theorem lookupCategory_eq_none (k : List Char) :
    ∀ l : List (List Char × Int), k ∉ l.map Prod.fst → lookupCategory k l = none := by
  intro l
  induction l with
  | nil => intro _; rfl
  | cons e es ih =>
    intro h
    rw [List.map_cons, List.mem_cons] at h
    push_neg at h
    rw [lookupCategory, if_neg (fun he => h.1 he.symm), ih h.2]

/-- C7. A response whose text, after stripping surrounding whitespace,
exactly equals an entry of the fixed category table yields that entry's id; a
response matching no entry yields the default id 1; a failed request (the
`except` path) also yields 1.  The function is total, so classification can
never abort publication. -/
theorem determine_category_spec :
    (∀ text k v, (k, v) ∈ CATEGORY_MAP → pyStrip text = k →
      determine_category (some text) = v) ∧
    (∀ text, pyStrip text ∉ CATEGORY_MAP.map Prod.fst →
      determine_category (some text) = 1) ∧
    determine_category none = 1 := by
  refine ⟨?_, ?_, rfl⟩
  · intro text k v hmem hstrip
    have hl : lookupCategory k CATEGORY_MAP = some v := by
      have hall : ∀ p ∈ CATEGORY_MAP, lookupCategory p.1 CATEGORY_MAP = some p.2 := by
        decide
      exact hall (k, v) hmem
    have hnz : v ≠ 0 := by
      have hall : ∀ p ∈ CATEGORY_MAP, p.2 ≠ 0 := by decide
      exact hall (k, v) hmem
    rw [determine_category, hstrip, hl]
    exact if_pos hnz
  · intro text hnot
    rw [determine_category, lookupCategory_eq_none _ _ hnot]

/-- Closed witness for C7: a padded exact category name, an unknown name, and
a failed request. -/
theorem determine_category_spec_witness :
    determine_category (some " ミキシング＆マスタリング \n".toList) = 8 ∧
    determine_category (some "その他".toList) = 1 ∧
    determine_category none = 1 :=
  ⟨determine_category_spec.1 _ "ミキシング＆マスタリング".toList 8
      (by decide) (by decide),
    determine_category_spec.2.1 "その他".toList (by decide),
    determine_category_spec.2.2⟩

/-! ### C8: related-content selection -/

theorem selectRelated_eq (titles : List (List Char)) (maxL : Nat) :
    ∀ posts acc, acc.length < maxL →
      selectRelated titles maxL acc posts =
        acc ++ (posts.filter (fun p => decide (p.title ∈ titles))).take
          (maxL - acc.length) := by
  intro posts
  induction posts with
  | nil => intro acc _; simp [selectRelated]
  | cons p ps ih =>
    intro acc hlen
    rw [selectRelated]
    by_cases hmem : p.title ∈ titles
    · simp only [if_pos hmem]
      by_cases hbreak : maxL ≤ (acc ++ [p]).length
      · rw [if_pos hbreak]
        have hM : maxL = acc.length + 1 := by
          simp only [List.length_append, List.length_cons, List.length_nil] at hbreak
          omega
        rw [List.filter_cons_of_pos (by simpa using hmem), hM]
        simp
      · rw [if_neg hbreak]
        have hlt : (acc ++ [p]).length < maxL := by
          simp only [List.length_append, List.length_cons, List.length_nil] at hbreak ⊢
          omega
        rw [ih (acc ++ [p]) hlt, List.filter_cons_of_pos (by simpa using hmem)]
        have harith : maxL - acc.length = (maxL - (acc ++ [p]).length) + 1 := by
          simp only [List.length_append, List.length_cons, List.length_nil] at hlt ⊢
          omega
        rw [harith, List.take_succ_cons]
        simp
    · simp only [if_neg hmem]
      rw [if_neg (by omega : ¬ maxL ≤ acc.length), ih acc hlen,
        List.filter_cons_of_neg (by simpa using hmem)]

/-- With `max_links = 0` the append-then-break loop still appends a matching
first post before the `len(related_posts) >= max_links` break fires: the
selection is the match-filter of the first post alone. -/
theorem selectRelated_zero (titles : List (List Char)) (posts : List PostRef) :
    selectRelated titles 0 [] posts =
      (posts.take 1).filter (fun p => decide (p.title ∈ titles)) := by
  cases posts with
  | nil => rfl
  | cons p ps =>
    rw [selectRelated]
    by_cases hmem : p.title ∈ titles
    · simp [hmem]
    · simp [hmem]

/-- C8 (amended). With 0, 1 or 2 existing posts the body is returned
unchanged, and a failed request returns it unchanged (both unconditionally);
with 3 or more posts, matching runs over the **full** `existing_posts` list
(the first-30 cut applies only to the prompt) by exact equality of post
titles against the parsed response lines, unmatched response titles are
dropped, every selected post comes from the supplied list, and the loop
stops once `maxLinks` matches are found: for `maxLinks ≥ 1` the selection is
the first-`maxLinks` prefix of the matching posts (so at most `maxLinks`
entries), while for `maxLinks = 0` the append-then-break loop still selects
the first post when it matches, so the selection can have one entry — at most
`max 1 maxLinks` entries in every case; the body is unchanged when nothing
matches and otherwise gets exactly the generated links block appended. -/
theorem add_internal_links_spec (content title : List Char)
    (posts : List PostRef) (maxL : Nat) (resp : Option (List Char)) :
    (posts.length < 3 → add_internal_links content title posts maxL resp = content) ∧
    (resp = none → add_internal_links content title posts maxL resp = content) ∧
    (∀ text, resp = some text → 3 ≤ posts.length →
      (1 ≤ maxL →
        selectRelated (parseRelatedTitles text) maxL [] posts =
          (posts.filter
            (fun p => decide (p.title ∈ parseRelatedTitles text))).take maxL) ∧
      (maxL = 0 →
        selectRelated (parseRelatedTitles text) maxL [] posts =
          (posts.take 1).filter
            (fun p => decide (p.title ∈ parseRelatedTitles text))) ∧
      (selectRelated (parseRelatedTitles text) maxL [] posts = [] →
        add_internal_links content title posts maxL resp = content) ∧
      (selectRelated (parseRelatedTitles text) maxL [] posts ≠ [] →
        add_internal_links content title posts maxL resp =
          content ++
            linksHtml (selectRelated (parseRelatedTitles text) maxL [] posts)) ∧
      (selectRelated (parseRelatedTitles text) maxL [] posts).length ≤
        max 1 maxL ∧
      (∀ p ∈ selectRelated (parseRelatedTitles text) maxL [] posts,
        p ∈ posts ∧ p.title ∈ parseRelatedTitles text)) := by
  refine ⟨?_, ?_, ?_⟩
  · intro h
    rw [add_internal_links.eq_def, if_pos h]
  · rintro rfl
    rw [add_internal_links.eq_def]
    by_cases h3 : posts.length < 3
    · rw [if_pos h3]
    · rw [if_neg h3]
  · rintro text rfl h3
    have hnl : ¬ posts.length < 3 := by omega
    have hunf : add_internal_links content title posts maxL (some text) =
        if selectRelated (parseRelatedTitles text) maxL [] posts = [] then content
        else content ++
          linksHtml (selectRelated (parseRelatedTitles text) maxL [] posts) := by
      rw [add_internal_links.eq_def, if_neg hnl]
    refine ⟨?_, ?_, ?_, ?_, ?_, ?_⟩
    · intro hm
      have hsel := selectRelated_eq (parseRelatedTitles text) maxL posts []
        (by simpa using hm)
      simpa only [List.nil_append, Nat.sub_zero] using hsel
    · rintro rfl
      exact selectRelated_zero _ posts
    · intro hempty
      rw [hunf, if_pos hempty]
    · intro hne
      rw [hunf, if_neg hne]
    · cases maxL with
      | zero =>
        rw [selectRelated_zero]
        exact le_trans (List.length_filter_le _ _)
          (le_trans (List.length_take_le _ _) (by simp))
      | succ m =>
        have hsel := selectRelated_eq (parseRelatedTitles text) (m + 1) posts []
          (by simp)
        simp only [List.nil_append, Nat.sub_zero] at hsel
        rw [hsel]
        exact le_trans (List.length_take_le _ _) (le_max_right 1 (m + 1))
    · intro p hp
      cases maxL with
      | zero =>
        rw [selectRelated_zero] at hp
        rw [List.mem_filter] at hp
        exact ⟨List.mem_of_mem_take hp.1, by simpa using hp.2⟩
      | succ m =>
        have hsel := selectRelated_eq (parseRelatedTitles text) (m + 1) posts []
          (by simp)
        simp only [List.nil_append, Nat.sub_zero] at hsel
        rw [hsel] at hp
        have hp2 := List.mem_of_mem_take hp
        rw [List.mem_filter] at hp2
        exact ⟨hp2.1, by simpa using hp2.2⟩

/-- Closed witness for C8 (amended): three posts with a matching response
line at `maxLinks = 2`, a two-post short-circuit, and the `maxLinks = 0`
single-selection behaviour. -/
theorem add_internal_links_spec_witness :
    add_internal_links "body".toList "t".toList
      [mkPost 0, mkPost 1, mkPost 2] 2 (some "Ta".toList) =
      "body".toList ++ linksHtml [mkPost 1] ∧
    add_internal_links "body".toList "t".toList [mkPost 0, mkPost 1] 2
      (some "Ta".toList) = "body".toList ∧
    selectRelated (parseRelatedTitles "T".toList) 0 []
        [mkPost 0, mkPost 1, mkPost 2] =
      ([mkPost 0, mkPost 1, mkPost 2].take 1).filter
        (fun p => decide (p.title ∈ parseRelatedTitles "T".toList)) := by
  refine ⟨?_, ?_, ?_⟩
  · have h := (add_internal_links_spec "body".toList "t".toList
      [mkPost 0, mkPost 1, mkPost 2] 2 (some "Ta".toList)).2.2
      "Ta".toList rfl (by decide)
    have hsel : selectRelated (parseRelatedTitles "Ta".toList) 2 []
        [mkPost 0, mkPost 1, mkPost 2] = [mkPost 1] := by decide
    rw [← hsel]
    exact h.2.2.2.1 (by rw [hsel]; decide)
  · exact (add_internal_links_spec "body".toList "t".toList
      [mkPost 0, mkPost 1] 2 (some "Ta".toList)).1 (by decide)
  · exact ((add_internal_links_spec "body".toList "t".toList
      [mkPost 0, mkPost 1, mkPost 2] 0 (some "T".toList)).2.2
      "T".toList rfl (by decide)).2.1 rfl

/-! ### C6: topic generation -/

theorem assignIds_length (maxId : Int) :
    ∀ (raws : List RawTheme) (k : Nat),
      (assignIds maxId k raws).length = raws.length := by
  intro raws
  induction raws with
  | nil => intro k; rfl
  | cons r rs ih => intro k; simp [assignIds, ih]

theorem assignIds_get (maxId : Int) :
    ∀ (raws : List RawTheme) (k i : Nat)
      (h : i < (assignIds maxId k raws).length) (h' : i < raws.length),
      (assignIds maxId k raws).get ⟨i, h⟩ =
        ⟨maxId + (k + i) + 1, (raws.get ⟨i, h'⟩).title,
          (raws.get ⟨i, h'⟩).keywords, (raws.get ⟨i, h'⟩).target_pain,
          (raws.get ⟨i, h'⟩).approach, some false⟩ := by
  intro raws
  induction raws with
  | nil => intro k i h h'; simp at h'
  | cons r rs ih =>
    intro k i h h'
    cases i with
    | zero => simp [assignIds]
    | succ i =>
      have h2 : i < (assignIds maxId (k + 1) rs).length := by
        rw [assignIds_length]
        simpa using h'
      have hstep := ih (k + 1) i h2 (by simpa using h')
      simp only [assignIds, List.get_cons_succ]
      rw [hstep]
      have harith : ((k + 1 : Nat) : Int) + (i : Int) =
          (k : Int) + ((i + 1 : Nat) : Int) := by
        push_cast
        ring
      rw [harith]

/-- C6. For any completion whose fence-stripped text parses as a JSON
array whose elements all carry the four expected fields (`parseJson` models
`json.loads`, applied after `strip()` and the removal of an optional
markdown fence labelled json), `generate_new_themes` succeeds without
touching the store and returns one theme per parsed element, in service
order, with ids `maxThemeId + 1, maxThemeId + 2, ...` (the default max being
0 on an empty store) and `used = false` on every generated theme. -/
theorem generate_new_themes_spec (s : ManagerState) (respText : List Char)
    (jv : Jv) (raws : List RawTheme)
    (hparse : parseJson (stripFenceClose (stripFenceOpen (pyStrip respText))) =
      some jv)
    (hconv : jvToRawThemes jv = some raws) :
    ∃ ts, generate_new_themes s respText = (Except.ok ts, s) ∧
      ts.length = raws.length ∧
      ∀ i (h : i < ts.length) (h' : i < raws.length),
        (ts.get ⟨i, h⟩).id = maxThemeId s.mem.themes + i + 1 ∧
        (ts.get ⟨i, h⟩).used = some false ∧
        (ts.get ⟨i, h⟩).title = (raws.get ⟨i, h'⟩).title ∧
        (ts.get ⟨i, h⟩).keywords = (raws.get ⟨i, h'⟩).keywords ∧
        (ts.get ⟨i, h⟩).target_pain = (raws.get ⟨i, h'⟩).target_pain ∧
        (ts.get ⟨i, h⟩).approach = (raws.get ⟨i, h'⟩).approach := by
  refine ⟨assignIds (maxThemeId s.mem.themes) 0 raws, ?_,
    assignIds_length _ _ _, ?_⟩
  · simp only [generate_new_themes, hparse, hconv]
  · intro i h h'
    rw [assignIds_get _ raws 0 i h h']
    refine ⟨by simp, rfl, rfl, rfl, rfl, rfl⟩

/-- Closed witness for C6: a fenced one-element completion is accepted, the
store is untouched and one theme is produced. -/
theorem generate_new_themes_spec_witness :
    (generate_new_themes wStore respW).2 = wStore ∧
    ∃ ts, (generate_new_themes wStore respW).1 = Except.ok ts ∧
      ts.length = 1 := by
  obtain ⟨ts, heq, hlen, -⟩ :=
    generate_new_themes_spec wStore respW jvW rawsW (by rfl) (by rfl)
  exact ⟨by rw [heq], ts, by rw [heq], hlen.trans rfl⟩

/-! ### C5: mark-used ordering in the pipeline tail -/

/-- C5 (amended). In the pipeline tail, a failure that aborts the run —
article generation or the publish call — leaves the store (memory and file)
exactly as it was, so the selected topic stays unconsumed; `markUsed` events
occur only when the publish call succeeded and only after the publish event.
(Classification, tag and related-content request failures are caught
internally and do not abort the run, so they do not keep the flag false —
see the counterexample to the frozen wording.) -/
theorem pipeline_mark_used_spec (s : ManagerState) (theme : Theme)
    (o : PipeOracles) (hsync : s.file = s.mem) :
    (o.articleResp = none →
      (run_after_selection s theme o).state = s ∧
      ∀ i, PipeEvent.markedUsed i ∉ (run_after_selection s theme o).trace) ∧
    (o.publishResult = none →
      (run_after_selection s theme o).state = s ∧
      (run_after_selection s theme o).state.file =
        (run_after_selection s theme o).state.mem ∧
      ∀ i, PipeEvent.markedUsed i ∉ (run_after_selection s theme o).trace) ∧
    (∀ i n, (run_after_selection s theme o).trace.get? n =
        some (PipeEvent.markedUsed i) →
      o.publishResult.isSome = true ∧
      ∃ m, m < n ∧ ∃ cid tids cont,
        (run_after_selection s theme o).trace.get? m =
          some (PipeEvent.published cid tids cont)) := by
  obtain ⟨oa, oc, ot, op, ol, opub⟩ := o
  refine ⟨?_, ?_, ?_⟩
  · rintro rfl
    exact ⟨rfl, fun i => by simp [run_after_selection]⟩
  · rintro rfl
    cases oa with
    | none => exact ⟨rfl, hsync, fun i => by simp [run_after_selection]⟩
    | some txt => exact ⟨rfl, hsync, fun i => by simp [run_after_selection]⟩
  · intro i n
    cases oa with
    | none =>
      intro h
      rcases n with _ | _ | n <;> simp [run_after_selection] at h
    | some txt =>
      cases opub with
      | none =>
        intro h
        rcases n with _ | _ | n <;> simp [run_after_selection] at h
      | some pr =>
        rcases hmk : mark_as_used s theme.id with ⟨s', mo⟩
        cases mo with
        | marked =>
          have htr : (run_after_selection s theme
              ⟨some txt, oc, ot, op, ol, some pr⟩).trace =
              [PipeEvent.published (determine_category oc)
                (pipelineTagIds (generate_article theme txt) ot)
                (pipelineContent (generate_article theme txt) op ol),
               PipeEvent.markedUsed theme.id] := by
            simp [run_after_selection, hmk]
          intro h
          rw [htr] at h
          rcases n with _ | _ | n
          · simp at h
          · refine ⟨rfl, 0, by omega, determine_category oc,
              pipelineTagIds (generate_article theme txt) ot,
              pipelineContent (generate_article theme txt) op ol, ?_⟩
            rw [htr]
            rfl
          · simp [List.get?] at h
        | notFound =>
          have htr : (run_after_selection s theme
              ⟨some txt, oc, ot, op, ol, some pr⟩).trace =
              [PipeEvent.published (determine_category oc)
                (pipelineTagIds (generate_article theme txt) ot)
                (pipelineContent (generate_article theme txt) op ol),
               PipeEvent.exited 1] := by
            simp [run_after_selection, hmk]
          intro h
          rw [htr] at h
          rcases n with _ | _ | n <;> simp [List.get?] at h

/-- Closed witness for C5 (amended): a failed publish leaves the concrete
store untouched and marks nothing. -/
theorem pipeline_mark_used_spec_witness :
    (run_after_selection wStore wTheme1 oPubFail).state = wStore ∧
    ∀ i, PipeEvent.markedUsed i ∉
      (run_after_selection wStore wTheme1 oPubFail).trace := by
  have h := (pipeline_mark_used_spec wStore wTheme1 oPubFail rfl).2.1 rfl
  exact ⟨h.1, h.2.2⟩

/-- C5 counterexample. The frozen claim reads: if the classification
stage fails, the selected topic's used flag remains false.  In the code
`determine_category` catches its own request failure and returns the default
category, the run continues, and a successful publish still marks the topic
used: with oracles whose classification request fails (`categoryResp =
none`) and whose publish succeeds, the selected topic ends `used = true`. -/
theorem pipeline_classification_failure_counterexample :
    oClassFail.categoryResp = none ∧
    (run_after_selection wStore wTheme1 oClassFail).state.mem.themes =
      [⟨1, [], [], [], [], some true⟩, wTheme2] ∧
    (run_after_selection wStore wTheme1 oClassFail).exitCode = 0 := by
  refine ⟨rfl, ?_, ?_⟩ <;> decide

/-- C8 counterexample, exhibiting both divergences of the frozen claim.
First, the claim requires every selected entry to be matched against the
candidate list actually sent to the service (the first 30 existing titles):
with 31 existing posts and a response naming only the 31st title, the code
still augments the article with that 31st post, whose title is not among the
30 candidates — the loop matches against the full `existing_posts` list.
Second, the claim bounds the selection by `maxLinks`: with `maxLinks = 0`
and a response naming the first of three posts, the append-then-break loop
appends that post before the `len >= max_links` break fires and the article
is augmented with one link, exceeding the claimed bound of zero. -/
theorem add_internal_links_candidates_counterexample :
    3 ≤ posts31.length ∧
    add_internal_links [] [] posts31 2 (some ('T' :: List.replicate 30 'a')) =
      linksHtml [mkPost 30] ∧
    ('T' :: List.replicate 30 'a') ∉ (posts31.take 30).map PostRef.title ∧
    add_internal_links [] [] [mkPost 0, mkPost 1, mkPost 2] 0
      (some "T".toList) = linksHtml [mkPost 0] ∧
    ¬ (linksHtml [mkPost 0] = ([] : List Char)) := by
  refine ⟨by decide, ?_, by decide, by decide, by decide⟩
  decide

end Onnou
